import Mathlib

/-!
Verification development for the seeker podcast-ingestion pipeline.

Each definition is a shallow embedding of the corresponding Python
function from the repository (file and line references are given in the
doc comments).  Strings are modelled as Lean strings (lists of
characters), machine-level byte values as `Nat` with explicit `% 256`
or `% 2 ^ 32` arithmetic where overflow matters, and fallible code as
`Option` / `Except`.
-/

set_option maxRecDepth 100000

namespace Seeker

/-! ## utils.py : sanitize_title (lines 11-21)

`sanitize_title` performs, in order:
1. `title.replace(" ", "_")`
2. `re.sub(r'[^\w\s.-]', '', ...)`  (delete every char that is not a
   word char, a whitespace char, a dot or a hyphen)
3. `re.sub(r'[_.-]+', '_', ...)`    (each maximal run of underscores,
   dots and hyphens becomes a single underscore)
4. `.strip('_-')`                   (trim leading/trailing `_` and `-`)

Python's `\w` and `\s` are Unicode classes; the pipeline is therefore
modelled generically over two character predicates `w` (word) and `s`
(whitespace), and instantiated with their ASCII fragments (every input
appearing in the claims is ASCII).  The idempotence proof is carried
out for arbitrary `w`, `s` with `w '_' = true`, which Python's real
classes satisfy. -/

/-- ASCII fragment of Python's regex class `\w` (letters, digits, underscore). -/
def pyWordChar (c : Char) : Bool := c.isAlphanum || c == '_'

/-- ASCII fragment of Python's regex class `\s`. -/
def pySpaceChar (c : Char) : Bool :=
  c == ' ' || c == '\t' || c == '\n' || c == '\r' || c == '\x0b' || c == '\x0c'

/-- Step 1 of `sanitize_title`: `title.replace(" ", "_")`. -/
def replaceSpaces (l : List Char) : List Char :=
  l.map (fun c => if c == ' ' then '_' else c)

/-- The character class `[\w\s.-]` kept by step 2 of `sanitize_title`. -/
def keptChar (w s : Char → Bool) (c : Char) : Bool :=
  w c || s c || c == '.' || c == '-'

/-- The character class `[_.-]` collapsed by step 3 of `sanitize_title`. -/
def runChar (c : Char) : Bool := c == '_' || c == '.' || c == '-'

/-- The character class stripped by `.strip('_-')` in step 4. -/
def stripChar (c : Char) : Bool := c == '_' || c == '-'

/-- `re.sub(p+, rep, ·)` for a single-character class `p`: every maximal
run of characters satisfying `p` is replaced by the single character
`rep`.  Within a run all characters but the last are dropped and the
last emits `rep`. -/
def collapseRunsBy (p : Char → Bool) (rep : Char) : List Char → List Char
  | [] => []
  | [c] => if p c then [rep] else [c]
  | a :: b :: t =>
    if p a && p b then collapseRunsBy p rep (b :: t)
    else if p a then rep :: collapseRunsBy p rep (b :: t)
    else a :: collapseRunsBy p rep (b :: t)

/-- Python `str.strip(chars)`: drop the characters satisfying `p` from
both ends. -/
def stripEndsBy (p : Char → Bool) (l : List Char) : List Char :=
  ((l.dropWhile p).reverse.dropWhile p).reverse

/-- The four-step pipeline of `utils.sanitize_title`, generic in the
word/whitespace classes. -/
def sanitizeTitleWith (w s : Char → Bool) (l : List Char) : List Char :=
  stripEndsBy stripChar
    (collapseRunsBy runChar '_' ((replaceSpaces l).filter (keptChar w s)))

/-- `utils.sanitize_title` (utils.py lines 11-21), with the ASCII
fragments of `\w` and `\s`. -/
def sanitize_title (title : String) : String :=
  ⟨sanitizeTitleWith pyWordChar pySpaceChar title.data⟩

/-! ## uuid_handler.py -/

/-- `prepare_title_for_uuid` (uuid_handler.py lines 15-46):
empty input short-circuits to `""` (the `if not title` guard); otherwise
`sanitize_title`, lower-case, `_` → `-`, collapse runs of `-`
(`re.sub(r'-+', '-', ...)`), and strip leading/trailing `-`. -/
def prepare_title_for_uuid (title : String) : String :=
  if title = "" then ""
  else
    let s1 := sanitize_title title
    let s2 := s1.data.map Char.toLower
    let s3 := s2.map (fun c => if c == '_' then '-' else c)
    let s4 := collapseRunsBy (fun c => c == '-') '-' s3
    ⟨stripEndsBy (fun c => c == '-') s4⟩

/-! ### MD5, as used by Python's `uuid.uuid3`

`uuid.uuid3(namespace, name)` hashes `namespace.bytes + name.encode('utf-8')`
with MD5, then forces the version nibble of byte 6 to `3` and the
variant bits of byte 8 to `10`. -/

/-- Addition modulo `2^32`. -/
def add32 (a b : Nat) : Nat := (a + b) % 4294967296

/-- Left rotation of a 32-bit word (`x < 2^32`) by `n` bits (`0 < n < 32`). -/
def rotl32 (x n : Nat) : Nat := ((x <<< n) ||| (x >>> (32 - n))) % 4294967296

/-- The 64 MD5 sine-derived constants `K[i]`. -/
def md5K : List Nat :=
  [0xd76aa478, 0xe8c7b756, 0x242070db, 0xc1bdceee,
   0xf57c0faf, 0x4787c62a, 0xa8304613, 0xfd469501,
   0x698098d8, 0x8b44f7af, 0xffff5bb1, 0x895cd7be,
   0x6b901122, 0xfd987193, 0xa679438e, 0x49b40821,
   0xf61e2562, 0xc040b340, 0x265e5a51, 0xe9b6c7aa,
   0xd62f105d, 0x02441453, 0xd8a1e681, 0xe7d3fbc8,
   0x21e1cde6, 0xc33707d6, 0xf4d50d87, 0x455a14ed,
   0xa9e3e905, 0xfcefa3f8, 0x676f02d9, 0x8d2a4c8a,
   0xfffa3942, 0x8771f681, 0x6d9d6122, 0xfde5380c,
   0xa4beea44, 0x4bdecfa9, 0xf6bb4b60, 0xbebfbc70,
   0x289b7ec6, 0xeaa127fa, 0xd4ef3085, 0x04881d05,
   0xd9d4d039, 0xe6db99e5, 0x1fa27cf8, 0xc4ac5665,
   0xf4292244, 0x432aff97, 0xab9423a7, 0xfc93a039,
   0x655b59c3, 0x8f0ccc92, 0xffeff47d, 0x85845dd1,
   0x6fa87e4f, 0xfe2ce6e0, 0xa3014314, 0x4e0811a1,
   0xf7537e82, 0xbd3af235, 0x2ad7d2bb, 0xeb86d391]

/-- The 64 MD5 per-round left-rotation amounts `s[i]`. -/
def md5S : List Nat :=
  [7, 12, 17, 22, 7, 12, 17, 22, 7, 12, 17, 22, 7, 12, 17, 22,
   5, 9, 14, 20, 5, 9, 14, 20, 5, 9, 14, 20, 5, 9, 14, 20,
   4, 11, 16, 23, 4, 11, 16, 23, 4, 11, 16, 23, 4, 11, 16, 23,
   6, 10, 15, 21, 6, 10, 15, 21, 6, 10, 15, 21, 6, 10, 15, 21]

/-- The MD5 round function (F, G, H, I depending on the round index). -/
def md5F (i b c d : Nat) : Nat :=
  if i < 16 then (b &&& c) ||| ((4294967295 ^^^ b) &&& d)
  else if i < 32 then (d &&& b) ||| ((4294967295 ^^^ d) &&& c)
  else if i < 48 then b ^^^ c ^^^ d
  else c ^^^ (b ||| (4294967295 ^^^ d))

/-- The MD5 message-word index `g` for round `i`. -/
def md5G (i : Nat) : Nat :=
  if i < 16 then i
  else if i < 32 then (5 * i + 1) % 16
  else if i < 48 then (3 * i + 5) % 16
  else (7 * i) % 16

/-- Little-endian 32-bit word `j` of a 64-byte chunk. -/
def le32Word (chunk : List Nat) (j : Nat) : Nat :=
  chunk.getD (4 * j) 0 + 256 * chunk.getD (4 * j + 1) 0 +
    65536 * chunk.getD (4 * j + 2) 0 + 16777216 * chunk.getD (4 * j + 3) 0

/-- One MD5 round applied to the state `(a, b, c, d)`. -/
def md5Round (chunk : List Nat) (st : Nat × Nat × Nat × Nat) (i : Nat) :
    Nat × Nat × Nat × Nat :=
  match st with
  | (a, b, c, d) =>
    let f := add32 (add32 a (md5F i b c d))
      (add32 (md5K.getD i 0) (le32Word chunk (md5G i)))
    (d, add32 b (rotl32 f (md5S.getD i 0)), b, c)

/-- Process one 64-byte chunk, adding the mixed state back into the
running state. -/
def md5Chunk (h : Nat × Nat × Nat × Nat) (chunk : List Nat) :
    Nat × Nat × Nat × Nat :=
  match (List.range 64).foldl (md5Round chunk) h with
  | (a, b, c, d) =>
    (add32 h.1 a, add32 h.2.1 b, add32 h.2.2.1 c, add32 h.2.2.2 d)

/-- A 64-bit value as 8 little-endian bytes. -/
def le64Bytes (n : Nat) : List Nat :=
  [n % 256, n / 256 % 256, n / 65536 % 256, n / 16777216 % 256,
   n / 4294967296 % 256, n / 1099511627776 % 256,
   n / 281474976710656 % 256, n / 72057594037927936 % 256]

/-- A 32-bit word as 4 little-endian bytes. -/
def le32Bytes (n : Nat) : List Nat :=
  [n % 256, n / 256 % 256, n / 65536 % 256, n / 16777216 % 256]

/-- MD5 padding: append `0x80`, zero bytes up to 56 mod 64, then the
bit length as 8 little-endian bytes. -/
def md5Pad (msg : List Nat) : List Nat :=
  let z := (119 - msg.length % 64) % 64
  msg ++ 0x80 :: List.replicate z 0 ++ le64Bytes (8 * msg.length)

/-- Split a list whose length is a multiple of 64 into 64-byte chunks. -/
def chunksOf64 (l : List Nat) : List (List Nat) :=
  go (l.length / 64) l
where
  go : Nat → List Nat → List (List Nat)
    | 0, _ => []
    | n + 1, l => l.take 64 :: go n (l.drop 64)

/-- The MD5 digest (16 bytes) of a byte sequence. -/
def md5Bytes (msg : List Nat) : List Nat :=
  match (chunksOf64 (md5Pad msg)).foldl md5Chunk
      (0x67452301, 0xefcdab89, 0x98badcfe, 0x10325476) with
  | (a, b, c, d) => le32Bytes a ++ le32Bytes b ++ le32Bytes c ++ le32Bytes d

/-- UTF-8 encoding of a Unicode code point. -/
def utf8EncodeCp (n : Nat) : List Nat :=
  if n < 0x80 then [n]
  else if n < 0x800 then [0xc0 + n / 64, 0x80 + n % 64]
  else if n < 0x10000 then [0xe0 + n / 4096, 0x80 + n / 64 % 64, 0x80 + n % 64]
  else [0xf0 + n / 262144, 0x80 + n / 4096 % 64, 0x80 + n / 64 % 64, 0x80 + n % 64]

/-- `str.encode('utf-8')` as a byte list. -/
def utf8Bytes (s : String) : List Nat :=
  s.data.flatMap (fun c => utf8EncodeCp c.toNat)

/-- Force the UUID version nibble (byte 6, high nibble `3`) and variant
bits (byte 8, high bits `10`) onto a 16-byte digest, as the `uuid.UUID`
constructor does for `version=3`. -/
def setVersionVariant (digest : List Nat) : List Nat :=
  (List.range 16).map fun i =>
    let b := digest.getD i 0
    if i = 6 then b % 16 + 48
    else if i = 8 then b % 64 + 128
    else b

/-- One hexadecimal digit character (lowercase). -/
def hexDigit (n : Nat) : Char :=
  if n < 10 then Char.ofNat (48 + n) else Char.ofNat (87 + n)

/-- A byte rendered as two lowercase hex characters. -/
def byteHex (b : Nat) : List Char := [hexDigit (b / 16), hexDigit (b % 16)]

/-- `uuid.uuid3(namespace, name).hex`: the 32-character lowercase hex
string of the version/variant-adjusted MD5 of namespace bytes plus the
UTF-8 encoded name. -/
def uuid3Hex (nsBytes : List Nat) (name : String) : String :=
  ⟨(setVersionVariant (md5Bytes (nsBytes ++ utf8Bytes name))).flatMap byteHex⟩

/-- The 16 bytes of `uuid.NAMESPACE_URL`
(6ba7b811-9dad-11d1-80b4-00c04fd430c8). -/
def NAMESPACE_URL_BYTES : List Nat :=
  [0x6b, 0xa7, 0xb8, 0x11, 0x9d, 0xad, 0x11, 0xd1,
   0x80, 0xb4, 0x00, 0xc0, 0x4f, 0xd4, 0x30, 0xc8]

/-- `BASE_URL` from uuid_handler.py line 12. -/
def BASE_URL : String := "https://audio-incite.com/"

/-- `generate_show_id` (uuid_handler.py lines 48-60). -/
def generate_show_id (show_title : String) : String :=
  uuid3Hex NAMESPACE_URL_BYTES
    (BASE_URL ++ "shows/" ++ prepare_title_for_uuid show_title)

/-- `generate_episode_id` (uuid_handler.py lines 62-75). -/
def generate_episode_id (show_id episode_title : String) : String :=
  uuid3Hex NAMESPACE_URL_BYTES
    (BASE_URL ++ "shows/" ++ show_id ++ "/episodes/" ++
      prepare_title_for_uuid episode_title)

/-- `generate_person_id` (uuid_handler.py lines 77-89). -/
def generate_person_id (person_name : String) : String :=
  uuid3Hex NAMESPACE_URL_BYTES
    (BASE_URL ++ "people/" ++ prepare_title_for_uuid person_name)

/-- `generate_audio_id` (uuid_handler.py lines 91-103); the Python
default for `audio_type` is `"episode"`, supplied explicitly by callers
of this embedding. -/
def generate_audio_id (related_entity_id audio_type : String) : String :=
  uuid3Hex NAMESPACE_URL_BYTES
    (BASE_URL ++ audio_type ++ "/" ++ related_entity_id ++ "/audio")

/-! ## Data model for feed entries (feedparser objects)

A feedparser entry is a loosely-typed dictionary; the fields the
pipeline reads are modelled explicitly.  `Option` distinguishes an
absent key (`None` from `.get`) from a present value. -/

/-- One enclosure of a feed entry.  `mime` models
`enclosure.get('type', '')` (an absent key yields `""`); `url` models
`enclosure.get('url')`. -/
structure Enclosure where
  mime : String
  url : Option String
deriving DecidableEq

/-- A feed entry, restricted to the fields read by the code under
verification: `title`, `published`, `published_parsed` (a
`time.struct_time`, modelled as its tuple of integers), `enclosures`
(`isSome` models the `'enclosures' in entry` membership test). -/
structure Entry where
  title : Option String
  published : Option String
  published_parsed : Option (List Int)
  enclosures : Option (List Enclosure)
deriving DecidableEq

/-- A parsed feed (`feedparser` result): the pipeline reads only its
entry list. -/
structure Feed where
  entries : List Entry
deriving DecidableEq

/-- One podcast's configuration object from `config/podcasts.json`. -/
structure PodcastData where
  rss : Option String
  title : Option String
deriving DecidableEq

/-- Python truthiness of an optional string: `None` and `""` are falsy. -/
def pyTruthyStr (o : Option String) : Bool :=
  match o with
  | none => false
  | some s => s != ""

/-- Python `s.startswith(p)` on character lists. -/
def strStartsWith (s p : String) : Bool := p.data.isPrefixOf s.data

/-- `_get_episode_audio_url` (main.py lines 139-145), identical in
effect to the enclosure scan of rss_parser.py lines 85-91: the `url`
value of the first enclosure whose type starts with `audio/`, `none`
when the entry has no enclosure list or no audio-typed enclosure
(or when that enclosure has no `url` key). -/
def getEpisodeAudioUrl (entry : Entry) : Option String :=
  match entry.enclosures with
  | none => none
  | some encls => firstAudio encls
where
  firstAudio : List Enclosure → Option String
    | [] => none
    | e :: rest => if strStartsWith e.mime "audio/" then e.url else firstAudio rest

/-! ## Rows and record sets (the BigQuery-facing data)

The warehouse writer reads only the `id` fields (and the two titles
used for the storage path); all other row columns are payload it
forwards unread, so they are not modelled. -/

/-- The AUDIO row of a record set (rss_parser.py lines 122-127);
storage fields start as `None` and are stamped in main.py lines
170-176. -/
structure AudioRow where
  id : String
  gcsBucket : Option String
  gcsObjectPath : Option String
  fileSize : Option Nat
deriving DecidableEq

/-- The SHOWS row (id and the title used for the storage path). -/
structure ShowRow where
  id : String
  title : String
deriving DecidableEq

/-- The EPISODES row (id and the title used for the storage path). -/
structure EpisodeRow where
  id : String
  title : String
deriving DecidableEq

/-- A PEOPLE row (the writer reads only `id`). -/
structure PersonRow where
  id : String
deriving DecidableEq

/-- A relationship row (SHOW_HOSTS: showId/personId; EPISODE_GUESTS:
episodeId/personId). -/
structure RelRow where
  key1 : String
  key2 : String
deriving DecidableEq

/-- The dictionary returned by `extract_episode_data` (rss_parser.py
lines 238-247), named `episode_bq_data` at its call sites.  The
`topics` and `synthetic_topics` entries are always empty lists in the
source and are omitted. -/
structure EpisodeBQData where
  audio : AudioRow
  show_ : ShowRow
  episode : EpisodeRow
  people : List PersonRow
  show_hosts : List RelRow
  episode_guests : List RelRow
deriving DecidableEq

/-! ## rss_parser.py : extract_episode_data (lines 69-251)

`dateutil.parser.parse` is external; it is modelled as an
uninterpreted success predicate `dateParse` because the parsed value
is never consumed: the first statement executed after a successful
parse is line 115, `show_id = generate_show_id(feed_show_title)`,
which reads the local variable `feed_show_title` before its assignment
(lines 138-145).  Python raises `UnboundLocalError` there; the handler
at lines 249-251 catches it and returns `None`. -/

/-- `extract_episode_data` (rss_parser.py lines 69-251).  Lines 83-95
gate on the three essential fields (Python truthiness); lines 98-112
return `None` when the published date fails to parse; otherwise line
115 raises `UnboundLocalError` (use of `feed_show_title` before
assignment), caught at lines 249-251, so the function returns `None`
on every input.  The code at lines 119-247 is unreachable. -/
def extract_episode_data (dateParse : String → Bool) (feed_entry : Entry)
    (_show_data : PodcastData) (_configured_podcast_name : String) :
    Option EpisodeBQData :=
  let episode_title := feed_entry.title
  let published_date_str := feed_entry.published
  let audio_url := getEpisodeAudioUrl feed_entry
  if !(pyTruthyStr episode_title && pyTruthyStr published_date_str &&
       pyTruthyStr audio_url) then
    none
  else if !dateParse (published_date_str.getD "") then
    none
  else
    none

/-! ## gcs_handler.py -/

/-- `construct_gcs_object_path` (gcs_handler.py lines 54-68). -/
def construct_gcs_object_path (show_title episode_title : String) : String :=
  "audio/" ++ sanitize_title show_title ++ "/" ++
    sanitize_title episode_title ++ ".mp3"

/-! ## bq_handler.py

The BigQuery client is modelled as an oracle giving the outcome of
each query/insert.  `insertOk table key` tells whether
`client.insert_rows_json` returned an empty error list for the row
with the given id (relationship rows are keyed by the pair as
`key1 ++ ":" ++ key2`); `recordExists`/`relExists` are the results of
the count queries in `_check_record_exists_by_id` and
`_check_relationship_exists` (both of which already catch their own
exceptions internally and degrade to `false`). -/

structure BQOracle where
  insertOk : String → String → Bool
  recordExists : String → String → Bool
  relExists : String → String → String → Bool

/-- Ghost trace element: one attempted `insert_rows_json` call, with
the table name and whether it reported no errors.  The trace is
instrumentation for stating which inserts were attempted; the Boolean
results and control flow follow the source. -/
structure InsertEvent where
  table : String
  ok : Bool
deriving DecidableEq

/-- `_insert_core_episode_data` (bq_handler.py lines 130-165): insert
AUDIO; on error log and return `False`; insert SHOWS only when the
show id does not already exist, returning `False` on error; insert
EPISODES, returning `False` on error; otherwise `True`. -/
def insertCoreEpisodeData (o : BQOracle) (d : EpisodeBQData) :
    Bool × List InsertEvent :=
  let okA := o.insertOk "AUDIO" d.audio.id
  if !okA then (false, [⟨"AUDIO", false⟩])
  else
    let showStep : List InsertEvent × Bool :=
      if o.recordExists "SHOWS" d.show_.id then ([], true)
      else
        let okS := o.insertOk "SHOWS" d.show_.id
        ([⟨"SHOWS", okS⟩], okS)
    if !showStep.2 then (false, ⟨"AUDIO", true⟩ :: showStep.1)
    else
      let okE := o.insertOk "EPISODES" d.episode.id
      (okE, ⟨"AUDIO", true⟩ :: showStep.1 ++ [⟨"EPISODES", okE⟩])

/-- `_insert_person_if_not_exists` (bq_handler.py lines 183-192):
insert when the id is absent; an insert error is only logged — the
function has no return value. -/
def insertPersonIfNotExists (o : BQOracle) (p : PersonRow) :
    List InsertEvent :=
  if o.recordExists "PEOPLE" p.id then []
  else [⟨"PEOPLE", o.insertOk "PEOPLE" p.id⟩]

/-- `_insert_show_hosts` (bq_handler.py lines 195-204): per pair,
insert when the (showId, personId) pair is absent; errors only
logged. -/
def insertShowHosts (o : BQOracle) (rows : List RelRow) :
    List InsertEvent :=
  rows.flatMap fun r =>
    if o.relExists "SHOW_HOSTS" r.key1 r.key2 then []
    else [⟨"SHOW_HOSTS", o.insertOk "SHOW_HOSTS" (r.key1 ++ ":" ++ r.key2)⟩]

/-- `_insert_episode_guests` (bq_handler.py lines 207-216). -/
def insertEpisodeGuests (o : BQOracle) (rows : List RelRow) :
    List InsertEvent :=
  rows.flatMap fun r =>
    if o.relExists "EPISODE_GUESTS" r.key1 r.key2 then []
    else [⟨"EPISODE_GUESTS", o.insertOk "EPISODE_GUESTS" (r.key1 ++ ":" ++ r.key2)⟩]

/-- `_insert_people_and_relationships` (bq_handler.py lines 168-180):
people, then show-host pairs, then episode-guest pairs; no return
value, so insert errors inside it are invisible to the caller. -/
def insertPeopleAndRelationships (o : BQOracle) (d : EpisodeBQData) :
    List InsertEvent :=
  d.people.flatMap (insertPersonIfNotExists o) ++
    insertShowHosts o d.show_hosts ++
    insertEpisodeGuests o d.episode_guests

/-- `insert_episode_data` (bq_handler.py lines 98-127): run the core
inserts, returning `False` immediately when they fail; otherwise run
the people/relationship inserts (whose errors are not observed) and
return `True`. -/
def insert_episode_data (o : BQOracle) (d : EpisodeBQData) :
    Bool × List InsertEvent :=
  match insertCoreEpisodeData o d with
  | (false, ev) => (false, ev)
  | (true, ev) => (true, ev ++ insertPeopleAndRelationships o d)

/-- Exceptions that the embedded code can raise. -/
inductive PyExc
  | typeError
  | unboundLocalError
deriving DecidableEq

/-- Body of `check_episode_exists` (bq_handler.py lines 24-52): derive
the show id from the `podcast_name` parameter and the episode id from
it and `episode_name`, then run the count query on EPISODES; internal
exceptions are caught and yield `False`. -/
def checkEpisodeExistsBody (o : BQOracle) (podcast_name episode_name : String) :
    Bool :=
  o.recordExists "EPISODES"
    (generate_episode_id (generate_show_id podcast_name) episode_name)

/-- A Python-level call to `check_episode_exists` with a positional
argument list (bq_handler.py line 10 declares five parameters, none
with a default).  Exactly five arguments bind the parameters and run
the body; any other count raises `TypeError` before the body (and its
internal `try`) is entered.  Argument values other than the two name
parameters are irrelevant; the client object is passed as an opaque
token string. -/
def callCheckEpisodeExists (o : BQOracle) (args : List String) :
    Except PyExc Bool :=
  match args with
  | [_, _, _, podcast_name, episode_name] =>
    .ok (checkEpisodeExistsBody o podcast_name episode_name)
  | _ => .error .typeError

/-! ## main.py : sorting the feed entries (lines 122-137) -/

/-- The sort key of line 134: `entry.get('published_parsed') or (0,)` —
the parsed date tuple when present and truthy (a non-empty tuple),
otherwise the sentinel `(0,)`. -/
def entrySortKey (e : Entry) : List Int :=
  match e.published_parsed with
  | none => [0]
  | some k => if k = [] then [0] else k

/-- Whether an entry carries a truthy parsed date (a present,
non-empty `published_parsed` tuple) — i.e. is not mapped to the
sentinel by the sort key. -/
def hasParsedDate (e : Entry) : Bool :=
  match e.published_parsed with
  | none => false
  | some k => k != []

/-- Python tuple `<=` (lexicographic; a strict prefix is smaller). -/
def tupleLe : List Int → List Int → Bool
  | [], _ => true
  | _ :: _, [] => false
  | a :: as_, b :: bs => if a < b then true else if b < a then false else tupleLe as_ bs

/-- The descending order used by `sorted(..., reverse=True)`:
`a` may come before `b` iff the key of `a` is at least the key of `b`. -/
def entryGE (a b : Entry) : Prop := tupleLe (entrySortKey b) (entrySortKey a) = true

instance : DecidableRel entryGE := fun a b => by unfold entryGE; infer_instance

/-- The sort of main.py lines 132-136: `sorted(feed.entries,
key=..., reverse=True)` is the stable descending reordering of the
entries; Mathlib's insertion sort with the reflexive descending
relation computes exactly that reordering. -/
def sortEntriesDesc (l : List Entry) : List Entry := l.insertionSort entryGE

/-- `_fetch_and_sort_podcast_entries` (main.py lines 122-137), with the
already-fetched feed as input (`rss_parser.fetch_and_parse_feed` is
network I/O, returning `None` on failure): `None` when the feed is
missing or has no entries, otherwise the sorted entries. -/
def fetchAndSortPodcastEntries (feed : Option Feed) : Option (List Entry) :=
  match feed with
  | none => none
  | some f => if f.entries = [] then none else some (sortEntriesDesc f.entries)

/-! ## main.py : the per-episode pipeline and the feed loop -/

/-- The environment of external collaborators of the orchestrator:
the BigQuery oracle, the audio downloader (`gcs_handler.download_file`,
`None` on failure, otherwise the bytes), the GCS uploader
(`gcs_handler.upload_to_gcs`, `False` on failure), the feed fetcher,
the `dateutil` parse-success predicate, and the configuration
strings. -/
structure Env where
  bq : BQOracle
  download : String → Option (List Nat)
  uploadOk : String → List Nat → Bool
  fetchFeed : String → Option Feed
  dateParse : String → Bool
  projectId : String
  datasetId : String
  bucket : String

/-- `_process_single_episode` (main.py lines 147-187):
1. first audio enclosure URL; falsy → skip (`False`);
2. line 156 calls `bq_handler.check_episode_exists` with the four
   positional arguments `(BQCLIENT, GCP_PROJECT_ID, BIGQUERY_DATASET_ID,
   episode_original_audio_url)` against its five-parameter signature —
   there is no try/except in this function, so the raised `TypeError`
   propagates to the caller;
3. extraction `None` → skip; 4. download failure → skip;
5. stamp `fileSize`, `gcsBucket`, `gcsObjectPath` onto the audio row;
6. upload failure → skip; 7. result of `insert_episode_data`. -/
def processSingleEpisode (env : Env) (pdata : PodcastData)
    (podcast_name : String) (entry : Entry) : Except PyExc Bool :=
  let url? := getEpisodeAudioUrl entry
  if !pyTruthyStr url? then .ok false
  else
    let url := url?.getD ""
    match callCheckEpisodeExists env.bq
        ["BQCLIENT", env.projectId, env.datasetId, url] with
    | .error e => .error e
    | .ok alreadyExists =>
      if alreadyExists then .ok false
      else
        match extract_episode_data env.dateParse entry pdata podcast_name with
        | none => .ok false
        | some data =>
          match env.download url with
          | none => .ok false
          | some audioBytes =>
            let path := construct_gcs_object_path data.show_.title
              data.episode.title
            let data2 : EpisodeBQData :=
              { data with audio :=
                { data.audio with
                    fileSize := some audioBytes.length
                    gcsBucket := some env.bucket
                    gcsObjectPath := some path } }
            if !env.uploadOk path audioBytes then .ok false
            else .ok (insert_episode_data env.bq data2).1

/-- The per-entry loop of `process_podcast_feed` (main.py lines
202-212), generic in the per-episode step: each entry is processed in
order; a `True` step increments `processed_count`; after each entry the
loop breaks when `processed_count >= limit`.  An exception raised by
the step propagates (there is no try/except around the loop body).
The second component of the result is a ghost trace — the list of
entries the loop actually examined, in order — used only to state
iteration properties; the count and the control flow follow the
source. -/
def processEntriesLoop (step : Entry → Except PyExc Bool) (limit : Nat) :
    List Entry → Nat → Except PyExc (Nat × List Entry)
  | [], c => .ok (c, [])
  | e :: rest, c =>
    match step e with
    | .error ex => .error ex
    | .ok b =>
      let c' := if b then c + 1 else c
      if limit ≤ c' then .ok (c', [e])
      else
        match processEntriesLoop step limit rest c' with
        | .error ex => .error ex
        | .ok (r, scanned) => .ok (r, e :: scanned)

/-- `process_podcast_feed` (main.py lines 189-215): missing RSS URL →
`False`; fetch/sort failure → `False`; otherwise run the per-entry
loop starting from `processed_count = 0` and return `True` (individual
skips and failures inside the loop do not fail the run, but an
exception raised by the per-episode step propagates). -/
def process_podcast_feed (env : Env) (podcast_name : String)
    (pdata : PodcastData) (limit : Nat) : Except PyExc Bool :=
  if !pyTruthyStr pdata.rss then .ok false
  else
    match fetchAndSortPodcastEntries (env.fetchFeed (pdata.rss.getD "")) with
    | none => .ok false
    | some sortedEntries =>
      match processEntriesLoop (processSingleEpisode env pdata podcast_name)
          limit sortedEntries 0 with
      | .error e => .error e
      | .ok _ => .ok true

/-! ## main.py : payload validation (lines 81-105) -/

/-- A JSON value as surfaced by `request.get_json` (restricted to the
shapes the validator inspects; nested containers are irrelevant to
it). -/
inductive JVal
  | null
  | bool (b : Bool)
  | int (n : Int)
  | str (s : String)
deriving DecidableEq

/-- Python truthiness of such a value: `None`, `False`, `0` and `""`
are falsy. -/
def pyTruthyJ : JVal → Bool
  | .null => false
  | .bool b => b
  | .int n => n != 0
  | .str s => s != ""

/-- Python `isinstance(x, int)`.  `bool` is a subclass of `int`, so
`True` and `False` satisfy it. -/
def pyIsInstanceInt : JVal → Bool
  | .int _ => true
  | .bool _ => true
  | _ => false

/-- The numeric value an int-like object carries in arithmetic and
comparisons (`True == 1`, `False == 0`); other shapes are unreachable
behind `pyIsInstanceInt`. -/
def pyIntValue : JVal → Int
  | .int n => n
  | .bool b => if b then 1 else 0
  | _ => 0

/-- `dict.get` on a JSON object modelled as an association list. -/
def jsonGet (d : List (String × JVal)) (k : String) : Option JVal :=
  (d.find? (fun p => p.1 == k)).map (fun p => p.2)

/-- Result of `_parse_and_validate_payload`: either the accepted
`(podcast_name, num_episodes)` pair (returned as the original Python
objects, line 102) or a 400 response with its message. -/
inductive ValidationResult
  | accepted (podcast_name : JVal) (num_episodes : JVal)
  | badRequest (msg : String)
deriving DecidableEq

/-- `_parse_and_validate_payload` (main.py lines 81-105).  The body is
`request.get_json(silent=True)`: `none` models a missing/invalid JSON
payload; an empty object is falsy and rejected by the same guard.
`num_episodes` is rejected when absent or JSON `null` (`is None`), and
when `not isinstance(num_episodes, int) or num_episodes < 0`. -/
def parse_and_validate_payload (body : Option (List (String × JVal))) :
    ValidationResult :=
  match body with
  | none => .badRequest "Request payload is missing or not valid JSON."
  | some d =>
    if d = [] then .badRequest "Request payload is missing or not valid JSON."
    else
      match jsonGet d "podcast_name" with
      | none => .badRequest "Missing podcast_name in request payload."
      | some pn =>
        if !pyTruthyJ pn then .badRequest "Missing podcast_name in request payload."
        else
          match jsonGet d "num_episodes" with
          | none => .badRequest "Missing num_episodes in request payload."
          | some .null => .badRequest "Missing num_episodes in request payload."
          | some ne =>
            if !pyIsInstanceInt ne then
              .badRequest "Invalid num_episodes: must be a non-negative integer."
            else if pyIntValue ne < 0 then
              .badRequest "Invalid num_episodes: must be a non-negative integer."
            else .accepted pn ne

/-! ## Concrete fixtures used by the claim theorems -/

/-- A feed entry carrying all three essential fields (title, published
date string with a parseable date, audio enclosure). -/
def entryFull : Entry :=
  { title := some "Ep1"
    published := some "2024-01-01T00:00:00"
    published_parsed := some [2024, 1, 1, 0, 0, 0, 0, 1, 0]
    enclosures := some [{ mime := "audio/mpeg", url := some "http://x/a.mp3" }] }

/-- A BigQuery oracle on which every insert succeeds and no record
exists yet. -/
def bqAllOk : BQOracle :=
  { insertOk := fun _ _ => true
    recordExists := fun _ _ => false
    relExists := fun _ _ _ => false }

/-- An environment in which every external collaborator succeeds. -/
def envFull : Env :=
  { bq := bqAllOk
    download := fun _ => some [0, 1, 2]
    uploadOk := fun _ _ => true
    fetchFeed := fun _ => some { entries := [entryFull] }
    dateParse := fun _ => true
    projectId := "proj"
    datasetId := "ds"
    bucket := "bucket" }

/-- A podcast configuration with an RSS URL. -/
def podcastDataFull : PodcastData :=
  { rss := some "http://feed.example/rss", title := some "All In" }

/-- A BigQuery oracle on which exactly the PEOPLE-table insert reports
errors. -/
def bqPeopleInsertFails : BQOracle :=
  { insertOk := fun t _ => !(t == "PEOPLE")
    recordExists := fun _ _ => false
    relExists := fun _ _ _ => false }

/-- A record set with one person row. -/
def episodeDataOnePerson : EpisodeBQData :=
  { audio := { id := "aud1", gcsBucket := none, gcsObjectPath := none, fileSize := none }
    show_ := { id := "show1", title := "S" }
    episode := { id := "ep1", title := "E" }
    people := [{ id := "per1" }]
    show_hosts := []
    episode_guests := [] }

/-- Request payload with `num_episodes` set to JSON `true`. -/
def payloadBoolTrue : List (String × JVal) :=
  [("podcast_name", .str "All In"), ("num_episodes", .bool true)]

/-- Request payload with `num_episodes` set to JSON `false`. -/
def payloadBoolFalse : List (String × JVal) :=
  [("podcast_name", .str "All In"), ("num_episodes", .bool false)]

/-- Successes of a pure per-episode step among a list of entries. -/
def countSuccess (f : Entry → Bool) (l : List Entry) : Nat :=
  (l.filter f).length

/-- A bare entry named by its title, used for loop-order scenarios. -/
def entryW (t : String) : Entry :=
  { title := some t, published := none, published_parsed := none,
    enclosures := none }

/-- The five-entry feed of the limit-semantics scenario. -/
def entriesW : List Entry :=
  [entryW "E1", entryW "E2", entryW "E3", entryW "E4", entryW "E5"]

/-- A per-episode step on which exactly entries `E2` and `E4` fail. -/
def stepW (e : Entry) : Bool :=
  !(e.title == some "E2") && !(e.title == some "E4")

/-! # Theorems -/

/-- C1: the claim states that an entry with a title, a published date
string and an audio enclosure whose date parses yields a non-null
record set.  In the code, line 115 of rss_parser.py reads the local
variable `feed_show_title` before its assignment at lines 138-145;
the `UnboundLocalError` is caught by the blanket handler at lines
249-251, so `extract_episode_data` returns `None` on every input —
including complete, parseable entries. -/
theorem extract_episode_data_always_none (dateParse : String → Bool)
    (e : Entry) (sd : PodcastData) (n : String) :
    extract_episode_data dateParse e sd n = none := by
  unfold extract_episode_data
  dsimp only
  split
  · rfl
  · split <;> rfl

/-- C2: the claim states that a dedupe check keyed by (podcast name,
episode title) runs after the audio URL is found, with a force-flag
bypass.  In the code, main.py line 156 passes four positional
arguments (the fourth being the audio URL) to the five-parameter
`check_episode_exists`, so Python raises `TypeError` before any check
runs; no force flag exists anywhere in the source. -/
theorem processSingleEpisode_dedupe_call_raises_type_error :
    processSingleEpisode envFull podcastDataFull "All In" entryFull =
      .error .typeError := by rfl

/-- C3: the claim states that no exception propagates past the
per-episode boundary.  The `TypeError` raised at main.py line 156 is
not caught in `_process_single_episode` nor in `process_podcast_feed`,
so the first entry carrying an audio enclosure aborts the whole
per-podcast batch. -/
theorem process_podcast_feed_exception_escapes :
    process_podcast_feed envFull "All In" podcastDataFull 2 =
      .error .typeError := by rfl

/-- C4 counterexample: on an oracle where exactly the PEOPLE insert
reports errors, `insert_episode_data` still returns success although
an attempted table insert failed — refuting `overall success iff every
attempted table insert succeeded`. -/
theorem insert_episode_data_not_all_or_nothing :
    (insert_episode_data bqPeopleInsertFails episodeDataOnePerson).1 = true ∧
    InsertEvent.mk "PEOPLE" false ∈
      (insert_episode_data bqPeopleInsertFails episodeDataOnePerson).2 := by
  decide

/-- C4 amended: `insert_episode_data` succeeds iff the three core
inserts (AUDIO; SHOWS when the show does not already exist; EPISODES)
all succeed: a core-table error stops the remaining inserts and fails
the call, while people/relationship insert errors are logged but
neither stop subsequent inserts nor affect the result. -/
theorem insert_episode_data_success_iff_core (o : BQOracle) (d : EpisodeBQData) :
    (insert_episode_data o d).1 =
      (o.insertOk "AUDIO" d.audio.id &&
        (o.recordExists "SHOWS" d.show_.id || o.insertOk "SHOWS" d.show_.id) &&
        o.insertOk "EPISODES" d.episode.id) := by
  unfold insert_episode_data insertCoreEpisodeData
  cases hA : o.insertOk "AUDIO" d.audio.id <;>
    cases hS : o.recordExists "SHOWS" d.show_.id <;>
      cases hI : o.insertOk "SHOWS" d.show_.id <;>
        cases hE : o.insertOk "EPISODES" d.episode.id <;>
          simp [hA, hS, hI, hE]

/-- C5 counterexample: the loop of main.py lines 202-212 checks the
limit only after processing an entry, so with requested count 0 it
still fully processes (and persists) the first entry and returns
processed_count 1 — refuting `at most N episodes; for N = 0 nothing
is performed`. -/
theorem processEntriesLoop_zero_limit_processes_first_entry :
    processEntriesLoop (fun _ => .ok true) 0 [entryFull] 0 =
      .ok (1, [entryFull]) := by rfl

/-- Helper for the amended C5 bound: starting from count `c`, the pure
loop returns a count of at most `max limit (c + 1)`. -/
theorem processEntriesLoop_pure_le_aux (f : Entry → Bool) (limit : Nat) :
    ∀ (l : List Entry) (c : Nat), ∃ r sc,
      processEntriesLoop (fun e => .ok (f e)) limit l c = .ok (r, sc) ∧
        r ≤ max limit (c + 1) := by
  intro l
  induction l with
  | nil =>
    intro c
    exact ⟨c, [], rfl, le_max_of_le_right (Nat.le_succ c)⟩
  | cons e rest ih =>
    intro c
    by_cases hb : f e
    · by_cases hlim : limit ≤ c + 1
      · exact ⟨c + 1, [e], by simp [processEntriesLoop, hb, hlim],
          le_max_of_le_right le_rfl⟩
      · obtain ⟨r, sc, hrec, hle⟩ := ih (c + 1)
        refine ⟨r, e :: sc, by simp [processEntriesLoop, hb, hlim, hrec], ?_⟩
        have : max limit (c + 1 + 1) = limit := by omega
        exact le_max_of_le_left (by omega)
    · by_cases hlim : limit ≤ c
      · exact ⟨c, [e], by simp [processEntriesLoop, hb, hlim],
          le_max_of_le_right (Nat.le_succ c)⟩
      · obtain ⟨r, sc, hrec, hle⟩ := ih c
        refine ⟨r, e :: sc, by simp [processEntriesLoop, hb, hlim, hrec], ?_⟩
        exact hle

/-- C5 amended: the per-feed loop records at most `max N 1` successes:
for N ≥ 1 at most N episodes are processed and persisted, but for
N = 0 the first eligible entry is still fully processed, because the
limit test runs only after each entry. -/
theorem processEntriesLoop_count_at_most_max_limit_one
    (f : Entry → Bool) (limit : Nat) (l : List Entry) :
    ∃ r sc, processEntriesLoop (fun e => .ok (f e)) limit l 0 = .ok (r, sc) ∧
      r ≤ max limit 1 := by
  simpa using processEntriesLoop_pure_le_aux f limit l 0

/-- C10: `isinstance(True, int)` holds in Python (bool subclasses
int), so a payload with `num_episodes: true` passes the
non-negative-integer validation and carries numeric value 1 (`false`
passes with value 0) instead of being rejected with a 400 response. -/
theorem validate_payload_accepts_bool_num_episodes :
    parse_and_validate_payload (some payloadBoolTrue) =
      .accepted (.str "All In") (.bool true) ∧
    pyIntValue (.bool true) = 1 ∧
    parse_and_validate_payload (some payloadBoolFalse) =
      .accepted (.str "All In") (.bool false) ∧
    pyIntValue (.bool false) = 0 := by
  decide

/-- `countSuccess` on a cons with a succeeding head. -/
theorem countSuccess_cons_true {f : Entry → Bool} {e : Entry} (l : List Entry)
    (h : f e = true) : countSuccess f (e :: l) = countSuccess f l + 1 := by
  simp [countSuccess, List.filter_cons, h]

/-- `countSuccess` on a cons with a failing head. -/
theorem countSuccess_cons_false {f : Entry → Bool} {e : Entry} (l : List Entry)
    (h : f e = false) : countSuccess f (e :: l) = countSuccess f l := by
  simp [countSuccess, List.filter_cons, h]

/-- Helper for C6: starting from any count `c < limit`, the pure loop
scans a prefix of the entries, returns `c` plus exactly the number of
successes in that prefix, which equals `min limit` of the total
reachable count; it scans every entry when successes fall short of the
limit, and leaves entries unscanned only when the counter reached the
limit. -/
theorem processEntriesLoop_pure_semantics_aux (f : Entry → Bool) (limit : Nat) :
    ∀ (l : List Entry) (c : Nat), c < limit →
      ∃ scanned rest, l = scanned ++ rest ∧
        processEntriesLoop (fun e => .ok (f e)) limit l c =
          .ok (c + countSuccess f scanned, scanned) ∧
        c + countSuccess f scanned = min limit (c + countSuccess f l) ∧
        (c + countSuccess f l < limit → rest = []) ∧
        (rest ≠ [] → c + countSuccess f scanned = limit) := by
  intro l
  induction l with
  | nil =>
    intro c hc
    refine ⟨[], [], rfl, ?_, ?_, fun _ => rfl, fun h => absurd rfl h⟩
    · simp [processEntriesLoop, countSuccess]
    · simp [countSuccess]
      omega
  | cons e rest ih =>
    intro c hc
    by_cases hb : f e
    · have hcr := countSuccess_cons_true (f := f) (e := e) rest hb
      by_cases hlim : limit ≤ c + 1
      · have hce := countSuccess_cons_true (f := f) (e := e) [] hb
        refine ⟨[e], rest, rfl, ?_, ?_, ?_, ?_⟩
        · simp [processEntriesLoop, hb, hlim, countSuccess]
        · rw [hce, hcr]
          simp [countSuccess]
          omega
        · intro hlt
          rw [hcr] at hlt
          omega
        · intro _
          rw [hce]
          simp [countSuccess]
          omega
      · obtain ⟨sc, rst, heq, hloop, hmin, h4, h5⟩ := ih (c + 1) (by omega)
        have hcc := countSuccess_cons_true (f := f) (e := e) sc hb
        refine ⟨e :: sc, rst, by rw [heq]; rfl, ?_, ?_, ?_, ?_⟩
        · simp only [processEntriesLoop, hb, if_true, hlim, if_false, hloop]
          rw [hcc]
          have : c + (countSuccess f sc + 1) = c + 1 + countSuccess f sc := by omega
          rw [this]
        · rw [hcc, hcr]
          omega
        · intro hlt
          rw [hcr] at hlt
          exact h4 (by omega)
        · intro hne
          have := h5 hne
          rw [hcc]
          omega
    · have hb' : f e = false := by simp [hb]
      have hlim : ¬ limit ≤ c := by omega
      obtain ⟨sc, rst, heq, hloop, hmin, h4, h5⟩ := ih c hc
      have hcc := countSuccess_cons_false (f := f) (e := e) sc hb'
      have hcr := countSuccess_cons_false (f := f) (e := e) rest hb'
      refine ⟨e :: sc, rst, by rw [heq]; rfl, ?_, ?_, ?_, ?_⟩
      · simp only [processEntriesLoop, hb', Bool.false_eq_true, if_false, hlim,
          hloop]
        rw [hcc]
      · rw [hcc, hcr]
        exact hmin
      · intro hlt
        rw [hcr] at hlt
        exact h4 hlt
      · intro hne
        rw [hcc]
        exact h5 hne

/-- C6: for a positive limit, the per-feed loop scans entries in
order, its processed counter counts exactly the successful episodes
among the scanned prefix (skips and failures never increment it), the
final count is `min limit (total successes)`, every entry is scanned
when successes fall short of the limit, and the loop stops before the
end exactly when the counter has reached the limit. -/
theorem processEntriesLoop_limit_counts_only_successes
    (f : Entry → Bool) (l : List Entry) (limit : Nat) (h : 1 ≤ limit) :
    ∃ scanned rest, l = scanned ++ rest ∧
      processEntriesLoop (fun e => .ok (f e)) limit l 0 =
        .ok (countSuccess f scanned, scanned) ∧
      countSuccess f scanned = min limit (countSuccess f l) ∧
      (countSuccess f l < limit → rest = []) ∧
      (rest ≠ [] → countSuccess f scanned = limit) := by
  have := processEntriesLoop_pure_semantics_aux f limit l 0 (by omega)
  simpa using this

/-- C6 witness: the spec scenario — five entries, entries `E2` and
`E4` failing, limit 2 — instantiates the limit-semantics theorem. -/
theorem processEntriesLoop_limit_counts_only_successes_witness :
    1 ≤ 2 ∧
    (∃ scanned rest, entriesW = scanned ++ rest ∧
      processEntriesLoop (fun e => .ok (stepW e)) 2 entriesW 0 =
        .ok (countSuccess stepW scanned, scanned) ∧
      countSuccess stepW scanned = min 2 (countSuccess stepW entriesW) ∧
      (countSuccess stepW entriesW < 2 → rest = []) ∧
      (rest ≠ [] → countSuccess stepW scanned = 2)) :=
  ⟨by decide,
    processEntriesLoop_limit_counts_only_successes stepW entriesW 2 (by decide)⟩

/-- C8: identity derivation is deterministic (the same title always
yields the same show id), distinct titles `Show A` and `Show B` yield
distinct show ids, and the same raw name used as a show title and as a
person name yields different ids, because the hashed URLs
`.../shows/slug` and `.../people/slug` differ. -/
theorem derive_ids_deterministic_and_kind_separating :
    (∀ T : String, generate_show_id T = generate_show_id T) ∧
    generate_show_id "Show A" ≠ generate_show_id "Show B" ∧
    generate_show_id "Show A" ≠ generate_person_id "Show A" :=
  ⟨fun _ => rfl, by decide, by decide⟩

/-- Python tuple comparison is total. -/
theorem tupleLe_total : ∀ a b : List Int, tupleLe a b = true ∨ tupleLe b a = true := by
  intro a
  induction a with
  | nil => intro b; left; rfl
  | cons x xs ih =>
    intro b
    cases b with
    | nil => right; rfl
    | cons y ys =>
      by_cases h1 : x < y
      · left; simp [tupleLe, h1]
      · by_cases h2 : y < x
        · right; simp [tupleLe, h2]
        · rcases ih ys with h | h
          · left; simp [tupleLe, h1, h2, h]
          · right; simp [tupleLe, h1, h2, h]

/-- Python tuple comparison is transitive. -/
theorem tupleLe_trans :
    ∀ a b c : List Int, tupleLe a b = true → tupleLe b c = true →
      tupleLe a c = true := by
  intro a
  induction a with
  | nil => intro b c _ _; rfl
  | cons x xs ih =>
    intro b c hab hbc
    cases b with
    | nil => simp [tupleLe] at hab
    | cons y ys =>
      cases c with
      | nil => simp [tupleLe] at hbc
      | cons z zs =>
        by_cases h1 : x < y
        · by_cases h2 : y < z
          · simp [tupleLe, show x < z by omega]
          · by_cases h2' : z < y
            · simp [tupleLe, h2, h2'] at hbc
            · simp [tupleLe, show x < z by omega]
        · by_cases h1' : y < x
          · simp [tupleLe, h1, h1'] at hab
          · by_cases h2 : y < z
            · simp [tupleLe, show x < z by omega]
            · by_cases h2' : z < y
              · simp [tupleLe, h2, h2'] at hbc
              · have hxz : ¬ x < z := by omega
                have hzx : ¬ z < x := by omega
                simp only [tupleLe, h1, h1', if_false] at hab
                simp only [tupleLe, h2, h2', if_false] at hbc
                simp only [tupleLe, hxz, hzx, if_false]
                exact ih ys zs hab hbc

instance : IsTotal Entry entryGE :=
  ⟨fun a b => by
    unfold entryGE
    rcases tupleLe_total (entrySortKey b) (entrySortKey a) with h | h
    · exact Or.inl h
    · exact Or.inr h⟩

instance : IsTrans Entry entryGE :=
  ⟨fun a b c hab hbc => by
    unfold entryGE at hab hbc ⊢
    exact tupleLe_trans _ _ _ hbc hab⟩

/-- A struct_time-shaped tuple (length at least 2, non-negative year)
is strictly above the sentinel `(0,)` in Python tuple order. -/
theorem tupleLe_sentinel_false {k : List Int} (h2 : 2 ≤ k.length)
    (h0 : 0 ≤ k.headI) : tupleLe k [0] = false := by
  cases k with
  | nil => simp at h2
  | cons a t =>
    cases t with
    | nil => simp at h2
    | cons b t' =>
      simp only [List.headI] at h0
      by_cases ha : (0 : Int) < a
      · simp [tupleLe, ha, show ¬ a < 0 by omega]
      · have haz : a = 0 := by omega
        subst haz
        simp [tupleLe]

/-- An entry without a truthy parsed date gets the sentinel key. -/
theorem entrySortKey_of_not_parsed {e : Entry} (h : hasParsedDate e = false) :
    entrySortKey e = [0] := by
  unfold hasParsedDate at h
  unfold entrySortKey
  cases hp : e.published_parsed with
  | none => rfl
  | some k =>
    rw [hp] at h
    simp at h
    simp [h]

/-- An entry with a truthy parsed date keeps its tuple as key. -/
theorem entrySortKey_of_parsed {e : Entry} (h : hasParsedDate e = true) :
    e.published_parsed = some (entrySortKey e) ∧ entrySortKey e ≠ [] := by
  unfold hasParsedDate at h
  unfold entrySortKey
  cases hp : e.published_parsed with
  | none => rw [hp] at h; simp at h
  | some k =>
    rw [hp] at h
    simp at h
    simp [h]

/-- C7: `sorted(entries, key=..., reverse=True)` produces a
permutation of the entries sorted descending by the parsed-date key,
and — provided the parsed dates are struct_time-shaped (length ≥ 2,
non-negative leading year) — every entry whose date failed to parse
(key replaced by the sentinel `(0,)`) is placed after all entries with
a parsed date. -/
theorem sortEntries_desc_sentinel_after_dated (l : List Entry)
    (h : ∀ e ∈ l, ∀ k, e.published_parsed = some k → k ≠ [] →
      2 ≤ k.length ∧ 0 ≤ k.headI) :
    List.Sorted entryGE (sortEntriesDesc l) ∧
    (sortEntriesDesc l).Perm l ∧
    List.Pairwise
      (fun a b => hasParsedDate a = false → hasParsedDate b = false)
      (sortEntriesDesc l) := by
  refine ⟨List.sorted_insertionSort entryGE l,
    List.perm_insertionSort entryGE l, ?_⟩
  have hs : List.Pairwise entryGE (sortEntriesDesc l) :=
    List.sorted_insertionSort entryGE l
  refine List.Pairwise.imp_of_mem ?_ hs
  intro a b _ hbmem hge hna
  by_contra hnb
  have hb : hasParsedDate b = true := by
    cases hx : hasParsedDate b
    · exact absurd hx hnb
    · rfl
  obtain ⟨hpb, hne⟩ := entrySortKey_of_parsed hb
  have hbl : b ∈ l := ((List.perm_insertionSort entryGE l).subset) hbmem
  obtain ⟨hlen, hhead⟩ := h b hbl (entrySortKey b) hpb hne
  have hka : entrySortKey a = [0] := entrySortKey_of_not_parsed hna
  unfold entryGE at hge
  rw [hka] at hge
  rw [tupleLe_sentinel_false hlen hhead] at hge
  exact absurd hge (by simp)

/-- C7 witness: a feed with one sentinel entry (no parsed date) listed
first and one dated entry; the theorem applies and the sentinel entry
ends up after the dated one. -/
theorem sortEntries_desc_sentinel_after_dated_witness :
    List.Sorted entryGE (sortEntriesDesc [entryW "S", entryFull]) ∧
    (sortEntriesDesc [entryW "S", entryFull]).Perm [entryW "S", entryFull] ∧
    List.Pairwise
      (fun a b => hasParsedDate a = false → hasParsedDate b = false)
      (sortEntriesDesc [entryW "S", entryFull]) :=
  sortEntries_desc_sentinel_after_dated [entryW "S", entryFull] (by
    intro e he k hk hne
    rcases List.mem_cons.mp he with rfl | he2
    · simp [entryW] at hk
    · rcases List.mem_cons.mp he2 with rfl | he3
      · simp only [entryFull] at hk
        rw [Option.some_inj] at hk
        subst hk
        refine ⟨by decide, by decide⟩
      · simp at he3)

/-! ### Lemmas about the sanitizer pipeline, towards idempotence -/

/-- `collapseRunsBy` on a non-run head just keeps it. -/
theorem collapse_cons_not (p : Char → Bool) (rep : Char) {b : Char}
    (hb : p b = false) (t : List Char) :
    collapseRunsBy p rep (b :: t) = b :: collapseRunsBy p rep t := by
  cases t <;> simp [collapseRunsBy, hb]

/-- `collapseRunsBy` on a run head emits `rep` and skips the rest of
the run. -/
theorem collapse_cons_run (p : Char → Bool) (rep : Char) :
    ∀ (t : List Char) {b : Char}, p b = true →
      collapseRunsBy p rep (b :: t) =
        rep :: collapseRunsBy p rep (t.dropWhile p) := by
  intro t
  induction t with
  | nil => intro b hb; simp [collapseRunsBy, hb]
  | cons c t' ih =>
    intro b hb
    by_cases hc : p c
    · rw [show collapseRunsBy p rep (b :: c :: t') = collapseRunsBy p rep (c :: t')
        by simp [collapseRunsBy, hb, hc]]
      rw [ih hc]
      simp [List.dropWhile_cons, hc]
    · have hc' : p c = false := by simp [hc]
      rw [show collapseRunsBy p rep (b :: c :: t') =
          rep :: collapseRunsBy p rep (c :: t')
        by simp [collapseRunsBy, hb, hc']]
      simp [List.dropWhile_cons, hc']

/-- Dropping a prefix of `p`-characters leaves a `p`-false head. -/
theorem head_dropWhile_false (p : Char → Bool) :
    ∀ (l : List Char) (d : Char), (l.dropWhile p).head? = some d → p d = false := by
  intro l
  induction l with
  | nil => intro d h; simp at h
  | cons a t ih =>
    intro d h
    by_cases ha : p a
    · rw [List.dropWhile_cons] at h
      simp only [ha, if_true] at h
      exact ih d h
    · rw [List.dropWhile_cons] at h
      simp only [ha, if_false] at h
      cases h
      simp [ha]

/-- `dropWhile` never lengthens a list. -/
theorem dropWhile_length_le (p : Char → Bool) :
    ∀ l : List Char, (l.dropWhile p).length ≤ l.length := by
  intro l
  induction l with
  | nil => exact le_rfl
  | cons a t ih =>
    rw [List.dropWhile_cons]
    by_cases ha : p a
    · rw [if_pos ha]
      exact le_trans ih (by simp)
    · rw [if_neg ha]

/-- Members of `dropWhile` are members of the list. -/
theorem mem_dropWhile_sub (p : Char → Bool) :
    ∀ (l : List Char) (c : Char), c ∈ l.dropWhile p → c ∈ l := by
  intro l
  induction l with
  | nil => intro c h; simp at h
  | cons a t ih =>
    intro c h
    rw [List.dropWhile_cons] at h
    by_cases ha : p a
    · simp only [ha, if_true] at h
      exact List.mem_cons_of_mem a (ih c h)
    · simp only [ha, if_false] at h
      exact h

/-- Every character of a collapsed list is an original character or
the replacement. -/
theorem collapse_mem (p : Char → Bool) (rep : Char) :
    ∀ (l : List Char) (c : Char), c ∈ collapseRunsBy p rep l →
      c ∈ l ∨ c = rep := by
  have key : ∀ (n : Nat) (l : List Char), l.length ≤ n → ∀ c,
      c ∈ collapseRunsBy p rep l → c ∈ l ∨ c = rep := by
    intro n
    induction n with
    | zero =>
      intro l hl c hc
      rw [List.length_eq_zero.mp (Nat.le_zero.mp hl)] at hc
      simp [collapseRunsBy] at hc
    | succ n ih =>
      intro l hl c hc
      cases l with
      | nil => simp [collapseRunsBy] at hc
      | cons b t =>
        by_cases hb : p b
        · rw [collapse_cons_run p rep t hb] at hc
          rcases List.mem_cons.mp hc with rfl | hc2
          · exact Or.inr rfl
          · have hlen : (t.dropWhile p).length ≤ n :=
              le_trans (dropWhile_length_le p t) (by simpa using hl)
            rcases ih _ hlen c hc2 with h | h
            · exact Or.inl (List.mem_cons_of_mem b (mem_dropWhile_sub p t c h))
            · exact Or.inr h
        · have hb' : p b = false := by simp [hb]
          rw [collapse_cons_not p rep hb' t] at hc
          rcases List.mem_cons.mp hc with rfl | hc2
          · exact Or.inl (List.mem_cons_self _ _)
          · rcases ih t (by simpa using hl) c hc2 with h | h
            · exact Or.inl (List.mem_cons_of_mem b h)
            · exact Or.inr h
  intro l
  exact key l.length l le_rfl

/-- Every run-class character surviving a collapse is the
replacement. -/
theorem collapse_mem_run_eq_rep (p : Char → Bool) (rep : Char) :
    ∀ (l : List Char) (c : Char), c ∈ collapseRunsBy p rep l →
      p c = true → c = rep := by
  have key : ∀ (n : Nat) (l : List Char), l.length ≤ n → ∀ c,
      c ∈ collapseRunsBy p rep l → p c = true → c = rep := by
    intro n
    induction n with
    | zero =>
      intro l hl c hc _
      rw [List.length_eq_zero.mp (Nat.le_zero.mp hl)] at hc
      simp [collapseRunsBy] at hc
    | succ n ih =>
      intro l hl c hc hpc
      cases l with
      | nil => simp [collapseRunsBy] at hc
      | cons b t =>
        by_cases hb : p b
        · rw [collapse_cons_run p rep t hb] at hc
          rcases List.mem_cons.mp hc with rfl | hc2
          · rfl
          · have hlen : (t.dropWhile p).length ≤ n :=
              le_trans (dropWhile_length_le p t) (by simpa using hl)
            exact ih _ hlen c hc2 hpc
        · have hb' : p b = false := by simp [hb]
          rw [collapse_cons_not p rep hb' t] at hc
          rcases List.mem_cons.mp hc with rfl | hc2
          · rw [hpc] at hb'
            cases hb'
          · exact ih t (by simpa using hl) c hc2 hpc
  intro l
  exact key l.length l le_rfl

/-- No two adjacent characters of a collapsed list are both in the
run class. -/
theorem collapse_chain (p : Char → Bool) (rep : Char) :
    ∀ l : List Char,
      List.Chain' (fun a b => ¬(p a = true ∧ p b = true))
        (collapseRunsBy p rep l) := by
  have key : ∀ (n : Nat) (l : List Char), l.length ≤ n →
      List.Chain' (fun a b => ¬(p a = true ∧ p b = true))
        (collapseRunsBy p rep l) := by
    intro n
    induction n with
    | zero =>
      intro l hl
      rw [List.length_eq_zero.mp (Nat.le_zero.mp hl)]
      simp [collapseRunsBy]
    | succ n ih =>
      intro l hl
      cases l with
      | nil => simp [collapseRunsBy]
      | cons b t =>
        by_cases hb : p b
        · rw [collapse_cons_run p rep t hb]
          rw [List.chain'_cons']
          refine ⟨?_, ?_⟩
          · intro hd hhd
            cases hdw : t.dropWhile p with
            | nil => rw [hdw] at hhd; simp [collapseRunsBy] at hhd
            | cons d t'' =>
              have hd' : p d = false :=
                head_dropWhile_false p t d (by rw [hdw]; rfl)
              rw [hdw, collapse_cons_not p rep hd' t''] at hhd
              simp only [List.head?_cons, Option.mem_def, Option.some_inj] at hhd
              subst hhd
              exact fun hpair => by rw [hpair.2] at hd'; cases hd'
          · exact ih _ (le_trans (dropWhile_length_le p t) (by simpa using hl))
        · have hb' : p b = false := by simp [hb]
          rw [collapse_cons_not p rep hb' t]
          rw [List.chain'_cons']
          refine ⟨?_, ih t (by simpa using hl)⟩
          intro hd _
          exact fun hpair => by rw [hpair.1] at hb'; cases hb'
  intro l
  exact key l.length l le_rfl

/-- A list whose run-class characters all equal `rep` and which has no
two adjacent run-class characters is a fixpoint of the collapse. -/
theorem collapse_eq_self (p : Char → Bool) (rep : Char) :
    ∀ l : List Char, (∀ c ∈ l, p c = true → c = rep) →
      List.Chain' (fun a b => ¬(p a = true ∧ p b = true)) l →
      collapseRunsBy p rep l = l := by
  intro l
  induction l with
  | nil => intro _ _; rfl
  | cons a t ih =>
    intro hmem hchain
    by_cases ha : p a
    · have haeq : a = rep := hmem a (List.mem_cons_self _ _) ha
      cases t with
      | nil => simp [collapseRunsBy, ha, haeq]
      | cons b t' =>
        have hrel := (List.chain'_cons.mp hchain).1
        have hb : p b = false := by
          cases hpb : p b
          · rfl
          · exact absurd ⟨ha, hpb⟩ hrel
        rw [collapse_cons_run p rep (b :: t') ha]
        rw [List.dropWhile_cons, if_neg (by simp [hb])]
        rw [ih (fun c hc hpc => hmem c (List.mem_cons_of_mem a hc) hpc)
          (List.chain'_cons.mp hchain).2]
        rw [haeq]
    · have ha' : p a = false := by simp [ha]
      rw [collapse_cons_not p rep ha' t]
      rw [ih (fun c hc hpc => hmem c (List.mem_cons_of_mem a hc) hpc)
        hchain.tail]

/-- A list whose head fails `q` is a fixpoint of `dropWhile q`. -/
theorem dropWhile_eq_self_of_head (q : Char → Bool) (l : List Char)
    (h : ∀ d, l.head? = some d → q d = false) : l.dropWhile q = l := by
  cases l with
  | nil => rfl
  | cons a t =>
    rw [List.dropWhile_cons]
    simp [h a rfl]

/-- Stripping both ends twice is the same as stripping once. -/
theorem stripEndsBy_idem (q : Char → Bool) (l : List Char) :
    stripEndsBy q (stripEndsBy q l) = stripEndsBy q l := by
  unfold stripEndsBy
  set u := l.dropWhile q with hu
  set v := u.reverse.dropWhile q with hv
  cases hve : v with
  | nil => simp [hve]
  | cons d vs =>
    have hvhead : q d = false := head_dropWhile_false q u.reverse d (by rw [← hv, hve]; rfl)
    -- u = v.reverse ++ (takeWhile q u.reverse).reverse
    have hsplit : u.reverse.takeWhile q ++ v = u.reverse := by
      rw [hv]; apply List.takeWhile_append_dropWhile
    have husplit : u = v.reverse ++ (u.reverse.takeWhile q).reverse := by
      have := congrArg List.reverse hsplit
      rw [List.reverse_append, List.reverse_reverse] at this
      exact this.symm
    -- front of v.reverse: last of v... we need head of v.reverse fails q
    have hulast : ∀ e, u.head? = some e → q e = false := by
      intro e he
      exact head_dropWhile_false q l e (by rw [← hu]; exact he)
    -- step A : (v.reverse).dropWhile q = v.reverse
    have hA : v.reverse.dropWhile q = v.reverse := by
      apply dropWhile_eq_self_of_head
      intro e he
      have hvne : v.reverse ≠ [] := by
        rw [hve]; simp
      cases hvr : v.reverse with
      | nil => exact absurd hvr hvne
      | cons e0 vs0 =>
        rw [hvr] at he
        simp only [List.head?_cons, Option.some_inj] at he
        subst he
        apply hulast
        rw [husplit, hvr]
        rfl
    -- step B : v.dropWhile q = v
    have hB : v.dropWhile q = v := by
      apply dropWhile_eq_self_of_head
      intro e he
      rw [hve] at he
      simp only [List.head?_cons, Option.some_inj] at he
      subst he
      exact hvhead
    rw [← hve, hA, List.reverse_reverse, hB]

/-- Members of a both-ends strip are members of the list. -/
theorem mem_stripEndsBy (q : Char → Bool) (l : List Char) (c : Char)
    (h : c ∈ stripEndsBy q l) : c ∈ l := by
  unfold stripEndsBy at h
  rw [List.mem_reverse] at h
  have h2 := mem_dropWhile_sub q _ c h
  rw [List.mem_reverse] at h2
  exact mem_dropWhile_sub q l c h2

/-- `Chain'` of a symmetric relation survives `dropWhile`. -/
theorem chain'_dropWhile {r : Char → Char → Prop} (q : Char → Bool) :
    ∀ l : List Char, List.Chain' r l → List.Chain' r (l.dropWhile q) := by
  intro l
  induction l with
  | nil => intro h; exact h
  | cons a t ih =>
    intro h
    rw [List.dropWhile_cons]
    by_cases ha : q a
    · simp only [ha, if_true]
      exact ih h.tail
    · simp only [ha, if_false]
      exact h

/-- `Chain'` of a symmetric relation survives `reverse`. -/
theorem chain'_reverse_of_symm {r : Char → Char → Prop}
    (hsym : ∀ a b, r a b → r b a) (l : List Char)
    (h : List.Chain' r l) : List.Chain' r l.reverse := by
  rw [List.chain'_reverse]
  refine List.Chain'.imp ?_ h
  intro a b hab
  exact hsym a b hab

/-- `Chain'` of a symmetric relation survives stripping both ends. -/
theorem chain'_stripEndsBy {r : Char → Char → Prop}
    (hsym : ∀ a b, r a b → r b a) (q : Char → Bool) (l : List Char)
    (h : List.Chain' r l) : List.Chain' r (stripEndsBy q l) := by
  unfold stripEndsBy
  exact chain'_reverse_of_symm hsym _
    (chain'_dropWhile q _ (chain'_reverse_of_symm hsym _ (chain'_dropWhile q l h)))

/-- Replacing spaces in a space-free list changes nothing. -/
theorem replaceSpaces_eq_self (l : List Char) (h : ∀ c ∈ l, c ≠ ' ') :
    replaceSpaces l = l := by
  induction l with
  | nil => rfl
  | cons a t ih =>
    unfold replaceSpaces
    simp only [List.map_cons]
    rw [show (if a == ' ' then '_' else a) = a by
      simp [h a (List.mem_cons_self _ _)]]
    have := ih fun c hc => h c (List.mem_cons_of_mem a hc)
    unfold replaceSpaces at this
    rw [this]

/-- The output of `replaceSpaces` contains no space. -/
theorem replaceSpaces_no_space (l : List Char) (c : Char)
    (h : c ∈ replaceSpaces l) : c ≠ ' ' := by
  unfold replaceSpaces at h
  rw [List.mem_map] at h
  obtain ⟨a, _, ha⟩ := h
  by_cases haSp : a == ' '
  · rw [← ha]; simp [haSp]
  · rw [← ha]
    simp only [haSp, if_false]
    simpa using haSp

/-- Idempotence of the generic sanitizer pipeline, for any word and
whitespace classes under which `_` is a word character (as in
Python). -/
theorem sanitizeTitleWith_idem (w s : Char → Bool) (hw : w '_' = true)
    (l : List Char) :
    sanitizeTitleWith w s (sanitizeTitleWith w s l) =
      sanitizeTitleWith w s l := by
  have hrunSymm : ∀ a b : Char,
      (fun a b => ¬(runChar a = true ∧ runChar b = true)) a b →
      (fun a b => ¬(runChar a = true ∧ runChar b = true)) b a :=
    fun a b hab ⟨h1, h2⟩ => hab ⟨h2, h1⟩
  set l2 := (replaceSpaces l).filter (keptChar w s) with hl2
  set l3 := collapseRunsBy runChar '_' l2 with hl3
  have hy : sanitizeTitleWith w s l = stripEndsBy stripChar l3 := rfl
  set y := stripEndsBy stripChar l3 with hyy
  have hymem : ∀ c ∈ y, c ∈ l3 := fun c hc => mem_stripEndsBy stripChar l3 c hc
  have hy_run : ∀ c ∈ y, runChar c = true → c = '_' := fun c hc hr =>
    collapse_mem_run_eq_rep runChar '_' l2 c (hymem c hc) hr
  have hy_nospace : ∀ c ∈ y, c ≠ ' ' := by
    intro c hc
    rcases collapse_mem runChar '_' l2 c (hymem c hc) with h | h
    · exact replaceSpaces_no_space l c (List.mem_filter.mp h).1
    · rw [h]; decide
  have hy_kept : ∀ c ∈ y, keptChar w s c = true := by
    intro c hc
    rcases collapse_mem runChar '_' l2 c (hymem c hc) with h | h
    · exact (List.mem_filter.mp h).2
    · rw [h]; simp [keptChar, hw]
  have hy_chain : List.Chain'
      (fun a b => ¬(runChar a = true ∧ runChar b = true)) y :=
    chain'_stripEndsBy hrunSymm stripChar l3 (collapse_chain runChar '_' l2)
  rw [hy]
  show stripEndsBy stripChar
      (collapseRunsBy runChar '_'
        ((replaceSpaces y).filter (keptChar w s))) = y
  rw [replaceSpaces_eq_self y hy_nospace]
  rw [List.filter_eq_self.mpr hy_kept]
  rw [collapse_eq_self runChar '_' y hy_run hy_chain]
  rw [hyy]
  exact stripEndsBy_idem stripChar l3

/-- C9: `sanitize_title` is a pure total function, idempotent on every
string, and maps the empty string to the empty string. -/
theorem sanitize_title_idempotent_and_empty :
    (∀ x : String, sanitize_title (sanitize_title x) = sanitize_title x) ∧
    sanitize_title "" = "" := by
  constructor
  · intro x
    unfold sanitize_title
    exact congrArg String.mk
      (sanitizeTitleWith_idem pyWordChar pySpaceChar (by decide) x.data)
  · rfl

/-! ### Ground-truth checks of the embedding

The values below are the outputs of the corresponding CPython
functions (`utils.sanitize_title`, `prepare_title_for_uuid`,
`uuid.uuid3(...).hex`) on the same inputs, confirming that the
sanitizer, the UTF-8 encoder, MD5 and the uuid3 version/variant
adjustment are embedded faithfully. -/

theorem sanitize_title_ground_truth :
    sanitize_title "  a..b--c  " = "a_b_c" ∧
    prepare_title_for_uuid "Show A" = "show-a" := by
  constructor <;> decide

theorem uuid3_ground_truth :
    generate_show_id "Show A" = "35ffad8b36c0391e8c72749bf798ae36" ∧
    generate_show_id "Show B" = "6cdf55cb510e31049caf15933f46e68e" ∧
    generate_person_id "Show A" = "75f6ffb8ea3e33c3beba8efbb3d347f2" := by
  refine ⟨by decide, by decide, by decide⟩

end Seeker
